import Mathlib

/-!
Shallow embedding of `src/muffin/mixture.py` (the heterogeneous-mixture
inference engine `HMM`, its parametric-component wrapper `par_model`, the
finalized draw `het_mixture`, and the helper `uniform`).

Modelling conventions:
  * Samples and density values are real numbers (`ℝ`); the Python code works
    on NumPy float arrays, `np.atleast_2d(x)` collapses to the scalar sample.
  * A log-space float that may be `-inf` is modelled by `LogVal := Option ℝ`
    with `none` standing for `-inf` (`lvAdd`, `lvSub`, `lvExp`, `logsumexp`
    mirror the NumPy/SciPy operations actually used on such values).
  * Dirichlet pseudo-counts, counts and the derived weight vector live in `ℚ`:
    the Python code only ever adds small integers and divides, which is exact.
  * Python attributes that `__init__` assigns only on some paths
    (`n_draws`, `par_draws`, `log_total_p`) are `Option`-valued fields;
    reading a missing attribute is an `AttributeError`, modelled by
    `Except.error`, so every method that may hit one returns `Except`.
  * The non-parametric collaborator (figaro's `DPGMM`) is external to this
    repository and is modelled at its interface boundary (`NPInterface`):
    point ingestion, the predictive-mixture score that
    `HMM._log_predictive_mixture` wraps, the point count, the frozen
    snapshot used by `build_mixture`, and the reset used by
    `density_from_samples`.
  * Randomness is replaced by explicit oracle arguments: the categorical
    draw of `np.random.choice` becomes the chosen index `id`, the candidate
    ensembles of `np.random.uniform` become the `draws` arguments, and
    `np.random.shuffle` becomes a Fisher-Yates pass driven by a list of
    swap positions (`applySwaps`).
-/

/-- Log-space value: `some r` is the finite float `r`, `none` is `-inf`. -/
abbrev LogVal : Type := Option ℝ

/-- Addition of log-space values (`-inf + anything = -inf`, as in NumPy). -/
def lvAdd : LogVal → LogVal → LogVal
  | some a, some b => some (a + b)
  | _, _ => none

/-- Subtraction of log-space values; the code only ever subtracts a finite
value or hits the `-inf - finite = -inf` case. -/
def lvSub : LogVal → LogVal → LogVal
  | some a, some b => some (a - b)
  | _, _ => none

/-- Exponential of a log-space value (`exp(-inf) = 0`). -/
noncomputable def lvExp : LogVal → ℝ
  | some a => Real.exp a
  | none => 0

/-- `scipy.special.logsumexp` on a vector of log-space values:
`log (Σ exp aᵢ)`, returning `-inf` when every entry is `-inf`. -/
noncomputable def logsumexp (l : List LogVal) : LogVal :=
  if l.all (fun v => v.isNone) then none
  else some (Real.log ((l.map lvExp).sum))

/-- The `uniform(x, v)` density of mixture.py: constant value `v`. -/
def uniform (_x : ℝ) (v : ℝ) : ℝ := v

/-- Embedding of the `par_model` class: a model pdf, its current
parameter vector and the domain bounds. -/
structure par_model where
  model : ℝ → List ℝ → ℝ
  pars : List ℝ
  bounds : List (ℝ × ℝ)

instance : Inhabited par_model := ⟨⟨fun _ _ => 0, [], []⟩⟩

/-- `par_model.pdf`: evaluate at the stored parameters. -/
def par_model.pdf (m : par_model) (x : ℝ) : ℝ := m.model x m.pars

/-- `par_model.pdf_pars`: evaluate at an arbitrary parameter vector. -/
def par_model.pdf_pars (m : par_model) (x : ℝ) (pars : List ℝ) : ℝ :=
  m.model x pars

/-- Embedding of the `het_mixture` class; component models are kept as their
pdf functions. -/
structure het_mixture where
  models : List (ℝ → ℝ)
  weights : List ℚ
  bounds : List (ℝ × ℝ)

/-- `het_mixture.pdf`: the weighted sum of component densities. -/
def het_mixture.pdf (h : het_mixture) (x : ℝ) : ℝ :=
  (List.zipWith (fun wi mi => (wi : ℝ) * mi x) h.weights h.models).sum

/-- Interface of the external non-parametric collaborator (figaro `DPGMM`),
specified only at its boundary: `addNewPoint` ingests one sample,
`predMixture` is the predictive score that `HMM._log_predictive_mixture`
computes from the collaborator's clusters, `nPts` the number of ingested
points, `snapshot` the frozen mixture pdf of `DPGMM.build_mixture`, and
`reset` the state produced by `DPGMM.initialise`. -/
structure NPInterface (σ : Type) where
  addNewPoint : σ → ℝ → σ
  predMixture : σ → ℝ → LogVal
  nPts : σ → ℕ
  snapshot : σ → (ℝ → ℝ)
  reset : σ → σ

/-- State of the `HMM` engine. Fields mirror the attributes set by
`HMM.__init__`; the three `Option`-valued fields are the attributes that
the Python constructor assigns only on some code paths. -/
structure HMM (σ : Type) where
  par_bounds : Option (List (List (ℝ × ℝ)))
  n_draws : Option ℕ
  par_models : List par_model
  par_draws : Option (List (List (List ℝ)))
  log_total_p : Option (List (List LogVal))
  dpgmm : σ
  bounds : List (ℝ × ℝ)
  volume : ℝ
  n_components : ℕ
  n_pts : List ℕ
  gamma0 : List ℚ
  weights : List ℚ

/-- Rectangle volume `np.prod(np.diff(bounds, axis = 1))`. -/
def listVolume (bounds : List (ℝ × ℝ)) : ℝ :=
  (bounds.map (fun b => b.2 - b.1)).prod

/-- The weight vector `(n_pts + gamma0) / np.sum(n_pts + gamma0)` of
`HMM._assign_to_component`. -/
def derivedWeights (n_pts : List ℕ) (gamma0 : List ℚ) : List ℚ :=
  let t := List.zipWith (fun (n : ℕ) (g : ℚ) => (n : ℚ) + g) n_pts gamma0
  t.map (fun ti => ti / t.sum)

/-- Embedding of `HMM.__init__`. `draws` is the oracle for the
`np.random.uniform` candidate ensembles, `dp0` the freshly constructed
collaborator state. A raised exception is `Except.error`; note that the
Python `raise` message is itself broken (`"....{n}...".format(...)` with a
positional argument raises `KeyError`), but either way construction fails. -/
def HMM.init (σ : Type) (models : List (ℝ → List ℝ → ℝ)) (bounds : List (ℝ × ℝ))
    (pars : Option (List (List ℝ))) (par_bounds : Option (List (List (ℝ × ℝ))))
    (n_draws : ℕ) (gamma0 : Option (List ℚ))
    (draws : List (List (List ℝ))) (dp0 : σ) : Except String (HMM σ) :=
  -- `if pars is None: pars = [[] for _ in models]; self.n_draws = 0.`
  let pars0 := match pars with
    | none => models.map (fun _ => ([] : List ℝ))
    | some p => p
  let nd0 : Option ℕ := match pars with
    | none => some 0
    | some _ => none
  -- `if par_bounds is not None: ...; self.n_draws = int(n_draws)` ;
  -- in the `else` branch only `self.par_bounds = None` is assigned, so
  -- `self.n_draws` stays missing when `pars` was supplied.
  let nd : Option ℕ := match par_bounds with
    | some _ => some n_draws
    | none => nd0
  let pms := List.zipWith (fun m p => par_model.mk m p bounds) models pars0
  let pd : Option (List (List (List ℝ))) := match par_bounds with
    | some _ => some draws
    | none => none
  let ltp : Option (List (List LogVal)) := match par_bounds with
    | some _ => some (pms.map (fun _ => List.replicate n_draws (some (0 : ℝ))))
    | none => none
  let nc := models.length + 1
  -- `gamma0 = np.array([gamma0])` wraps the supplied vector in an extra
  -- list, so the subsequent length check compares `1` with `n_components`.
  let g0 : Except String (List ℚ) := match gamma0 with
    | none => .ok (List.replicate nc 1)
    | some g =>
        let gw : List (List ℚ) := [g]
        if gw.length = nc then .ok gw.flatten
        else .error "gamma0 must be an array with n_components components."
  match g0 with
  | .error e => .error e
  | .ok g =>
      .ok { par_bounds := par_bounds
            n_draws := nd
            par_models := pms
            par_draws := pd
            log_total_p := ltp
            dpgmm := dp0
            bounds := bounds
            volume := listVolume bounds
            n_components := nc
            n_pts := List.replicate nc 0
            gamma0 := g
            weights := g.map (fun gi => gi / g.sum) }

/-- Embedding of `HMM.initialise`: reset counts and weights and, in
marginalization mode, install a fresh candidate ensemble (`fresh` is the
oracle for the new `np.random.uniform` draws) and zeroed log-evidence. -/
def HMM.initialise {σ : Type} (s : HMM σ) (fresh : List (List (List ℝ))) :
    HMM σ :=
  let s1 := { s with n_pts := List.replicate s.n_components 0
                     weights := s.gamma0.map (fun gi => gi / s.gamma0.sum) }
  match s.par_bounds with
  | none => s1
  | some _ =>
      { s1 with par_draws := some fresh
                log_total_p := some (s.par_models.map
                  (fun _ => List.replicate (s.n_draws.getD 0) (some (0 : ℝ)))) }

/-- Per-candidate log-likelihood vector of a marginalization-mode slot:
`log_p = np.ones(len(p)) * -np.inf; log_p[p > 0] = np.log(p[p > 0])`. -/
noncomputable def perCandidateLogP (m : par_model) (drawsI : List (List ℝ))
    (x : ℝ) : List LogVal :=
  (drawsI.map (fun pr => m.pdf_pars x pr)).map
    (fun pj => if pj > 0 then some (Real.log pj) else none)

/-- Embedding of `HMM._log_predictive_likelihood(x, i)`, returning the
slot's predictive log-likelihood together with the per-candidate vector. -/
noncomputable def HMM.log_predictive_likelihood {σ : Type} (np : NPInterface σ)
    (s : HMM σ) (x : ℝ) (i : ℕ) : Except String (LogVal × List LogVal) :=
  if i = 0 then
    -- `return self._log_predictive_mixture(x), np.zeros(self.n_draws)`
    match s.n_draws with
    | none => .error "HMM object has no attribute n_draws"
    | some nd => .ok (np.predMixture s.dpgmm x, List.replicate nd (some (0 : ℝ)))
  else
    match s.par_bounds with
    | none =>
        -- point mode: `p = self.components[i].pdf(x)`
        match s.n_draws with
        | none => .error "HMM object has no attribute n_draws"
        | some nd =>
            let p := (s.par_models.getD (i - 1) default).pdf x
            if p = 0 then .ok (none, List.replicate nd (some (0 : ℝ)))
            else .ok (some (Real.log p), List.replicate nd (some (0 : ℝ)))
    | some _ =>
        match s.par_draws, s.log_total_p with
        | some pd, some ltp =>
            let log_p := perCandidateLogP (s.par_models.getD (i - 1) default)
              (pd.getD (i - 1) []) x
            let L := ltp.getD (i - 1) []
            .ok (lvSub (logsumexp (List.zipWith lvAdd log_p L)) (logsumexp L),
                 log_p)
        | _, _ => .error "HMM object has no attribute par_draws"

/-- Embedding of `HMM._assign_to_component`. The categorical draw from the
normalized scores is replaced by the oracle argument `id`; the per-slot
`vals` rows are exactly the second components returned by
`_log_predictive_likelihood`. -/
noncomputable def HMM.assign_to_component {σ : Type} (np : NPInterface σ)
    (s : HMM σ) (x : ℝ) (id : ℕ) : Except String (HMM σ) :=
  -- `vals = np.zeros(shape = (self.n_components, self.n_draws))`
  match s.n_draws with
  | none => .error "HMM object has no attribute n_draws"
  | some _ => do
      let rs ← (List.range s.n_components).mapM
        (fun i => s.log_predictive_likelihood np x i)
      let vals := rs.map Prod.snd
      let n_pts1 := s.n_pts.set id (s.n_pts.getD id 0 + 1)
      let weights1 := derivedWeights n_pts1 s.gamma0
      if id = 0 then
        .ok { s with n_pts := n_pts1
                     weights := weights1
                     dpgmm := np.addNewPoint s.dpgmm x }
      else
        -- `self.log_total_p[id-1] += vals[id]`
        match s.log_total_p with
        | none => .error "HMM object has no attribute log_total_p"
        | some ltp =>
            .ok { s with n_pts := n_pts1
                         weights := weights1
                         log_total_p := some (ltp.set (id - 1)
                           (List.zipWith lvAdd (ltp.getD (id - 1) [])
                             (vals.getD id []))) }

/-- Embedding of `HMM.add_new_point` (the `np.atleast_2d` wrapping is the
identity on a scalar sample). -/
noncomputable def HMM.add_new_point {σ : Type} (np : NPInterface σ) (s : HMM σ)
    (x : ℝ) (id : ℕ) : Except String (HMM σ) :=
  s.assign_to_component np x id

/-- Embedding of `HMM.build_mixture`. Returns the finalized draw together
with the updated engine (the Python method mutates
`self.par_models[i].pars` in place). Reading `self.par_draws` on an engine
that never assigned that attribute is an `AttributeError`. -/
noncomputable def HMM.build_mixture {σ : Type} (np : NPInterface σ)
    (s : HMM σ) : Except String (het_mixture × HMM σ) :=
  match s.par_draws with
  | none => .error "HMM object has no attribute par_draws"
  | some pd =>
      match s.log_total_p with
      | none => .error "HMM object has no attribute log_total_p"
      | some ltp =>
          let pms := (List.range s.par_models.length).map (fun i =>
            let drawsI := pd.getD i []
            let L := ltp.getD i []
            -- `vals = np.exp(self.log_total_p[i] - logsumexp(self.log_total_p[i]))`
            let vals := L.map (fun lj => lvExp (lvSub lj (logsumexp L)))
            let dim := (drawsI.getD 0 []).length
            -- `par_vals = np.array([np.sum(p*vals) for p in self.par_draws[i].T])`
            let par_vals := (List.range dim).map (fun k =>
              (List.zipWith (fun row v => row.getD k 0 * v) drawsI vals).sum)
            { s.par_models.getD i default with pars := par_vals })
          let s1 := { s with par_models := pms }
          let front : ℝ → ℝ :=
            if np.nPts s.dpgmm = 0 then fun x => uniform x (1 / s.volume)
            else np.snapshot s.dpgmm
          .ok ({ models := front :: pms.map par_model.pdf
                 weights := s.weights
                 bounds := s.bounds }, s1)

/-- One Fisher-Yates swap of `np.random.shuffle`: exchange positions `i`
and `j` (guarded so that an out-of-range oracle index is a no-op). -/
def swapIdx (l : List ℝ) (i j : ℕ) : List ℝ :=
  if i < l.length ∧ j < l.length then
    (l.set i (l.getD j 0)).set j (l.getD i 0)
  else l

/-- The in-place `np.random.shuffle(samples)`, driven by an oracle list of
swap position pairs. -/
def applySwaps (sw : List (ℕ × ℕ)) (l : List ℝ) : List ℝ :=
  sw.foldl (fun acc p => swapIdx acc p.1 p.2) l

/-- The streaming loop of `density_from_samples`: feed a list of
(sample, chosen-slot) pairs through `add_new_point` in order. -/
noncomputable def addSeq {σ : Type} (np : NPInterface σ) (s : HMM σ)
    (xs : List (ℝ × ℕ)) : Except String (HMM σ) :=
  xs.foldlM (fun st p => st.add_new_point np p.1 p.2) s

/-- Embedding of `HMM.density_from_samples`: shuffle the caller's array in
place, stream every sample through `add_new_point`, build the mixture,
reset the collaborator and the engine. The third component of the result
is the caller's array as the call leaves it. `sw` drives the shuffle,
`ids` the per-sample categorical draws, `fresh` the re-drawn ensembles. -/
noncomputable def HMM.density_from_samples {σ : Type} (np : NPInterface σ)
    (s : HMM σ) (samples : List ℝ) (sw : List (ℕ × ℕ)) (ids : List ℕ)
    (fresh : List (List (List ℝ))) :
    Except String (het_mixture × HMM σ × List ℝ) := do
  let shuffled := applySwaps sw samples
  let s1 ← addSeq np s (shuffled.zip ids)
  let (d, s2) ← s1.build_mixture np
  let s3 := { s2 with dpgmm := np.reset s2.dpgmm }
  let s4 := s3.initialise fresh
  .ok (d, s4, shuffled)

/-! ### Concrete instances used by witnesses -/

/-- A trivial collaborator implementation used to instantiate theorems. -/
def toyNP : NPInterface (List ℝ) :=
  { addNewPoint := fun s x => s ++ [x]
    predMixture := fun _ _ => some 0
    nPts := fun s => s.length
    snapshot := fun _ _ => 1
    reset := fun _ => [] }

/-- A constant density equal to 1 everywhere. -/
def mOne : ℝ → List ℝ → ℝ := fun _ _ => 1

/-- A density that is exactly zero everywhere. -/
def mZero : ℝ → List ℝ → ℝ := fun _ _ => 0

/-- A small marginalization-mode engine state with one parametric slot and
a two-candidate ensemble. -/
def wMargState : HMM (List ℝ) :=
  { par_bounds := some [[(0, 1)]]
    n_draws := some 2
    par_models := [⟨mOne, [], [(0, 1)]⟩]
    par_draws := some [[[1], [3]]]
    log_total_p := some [[some 0, some 0]]
    dpgmm := []
    bounds := [(0, 1)]
    volume := 1
    n_components := 2
    n_pts := [0, 0]
    gamma0 := [1, 1]
    weights := [1/2, 1/2] }

/-! ### Generic helper lemmas -/

theorem except_bind_ok {α β : Type} (a : α) (f : α → Except String β) :
    (Except.ok a >>= f) = f a := rfl

theorem except_pure_eq {α : Type} (a : α) :
    (pure a : Except String α) = .ok a := rfl

theorem except_bind_eq_ok {α β : Type} {x : Except String α}
    {f : α → Except String β} {b : β} (h : (x >>= f) = .ok b) :
    ∃ a, x = .ok a ∧ f a = .ok b := by
  cases x with
  | error e => cases h
  | ok a => exact ⟨a, rfl, h⟩

theorem mapM_ok_of_forall {α β : Type} (l : List α) (f : α → Except String β)
    (g : α → β) (h : ∀ a ∈ l, f a = .ok (g a)) :
    l.mapM f = .ok (l.map g) := by
  induction l with
  | nil => rfl
  | cons a t ih =>
      rw [List.mapM_cons, h a (List.mem_cons_self a t),
        ih (fun b hb => h b (List.mem_cons_of_mem a hb))]
      rfl

theorem getD_map_range {α : Type} (n : ℕ) (f : ℕ → α) (i : ℕ) (d : α) :
    ((List.range n).map f).getD i d = if i < n then f i else d := by
  by_cases h : i < n
  · rw [List.getD_eq_getElem _ _ (by simpa using h)]
    simp [h]
  · rw [List.getD_eq_default _ _ (by simpa using Nat.le_of_not_lt h)]
    simp [h]

theorem sum_set_getD_succ : ∀ (l : List ℕ) (i : ℕ), i < l.length →
    (l.set i (l.getD i 0 + 1)).sum = l.sum + 1 := by
  intro l
  induction l with
  | nil => intro i h; simp at h
  | cons a t ih =>
      intro i h
      cases i with
      | zero => simp [List.getD]; omega
      | succ n =>
          have ht : n < t.length := by simpa using h
          have := ih n ht
          simp only [List.set, List.sum_cons, List.getD_cons_succ]
          omega

/-! ### Behaviour of the scoring and assignment steps in marginalization mode -/

/-- The pair returned by `_log_predictive_likelihood(x, i)` on an engine
whose marginalization-mode attributes are all present. -/
noncomputable def slotVec {σ : Type} (np : NPInterface σ) (s : HMM σ)
    (pd : List (List (List ℝ))) (ltp : List (List LogVal)) (nd : ℕ) (x : ℝ)
    (i : ℕ) : LogVal × List LogVal :=
  if i = 0 then (np.predMixture s.dpgmm x, List.replicate nd (some (0 : ℝ)))
  else
    (lvSub (logsumexp (List.zipWith lvAdd
        (perCandidateLogP (s.par_models.getD (i - 1) default)
          (pd.getD (i - 1) []) x)
        (ltp.getD (i - 1) [])))
      (logsumexp (ltp.getD (i - 1) [])),
     perCandidateLogP (s.par_models.getD (i - 1) default) (pd.getD (i - 1) []) x)

theorem log_predictive_likelihood_marg {σ : Type} (np : NPInterface σ)
    (s : HMM σ) (x : ℝ) (i : ℕ) {pb : List (List (ℝ × ℝ))}
    {pd : List (List (List ℝ))} {ltp : List (List LogVal)} {nd : ℕ}
    (hpb : s.par_bounds = some pb) (hpd : s.par_draws = some pd)
    (hltp : s.log_total_p = some ltp) (hnd : s.n_draws = some nd) :
    s.log_predictive_likelihood np x i = .ok (slotVec np s pd ltp nd x i) := by
  unfold HMM.log_predictive_likelihood slotVec
  by_cases hi : i = 0
  · simp [hi, hnd]
  · simp [hi, hpb, hpd, hltp]

theorem assign_marg_ok {σ : Type} (np : NPInterface σ) (s : HMM σ) (x : ℝ)
    (id : ℕ) {pb : List (List (ℝ × ℝ))} {pd : List (List (List ℝ))}
    {ltp : List (List LogVal)} {nd : ℕ}
    (hpb : s.par_bounds = some pb) (hpd : s.par_draws = some pd)
    (hltp : s.log_total_p = some ltp) (hnd : s.n_draws = some nd) :
    ∃ s', s.assign_to_component np x id = .ok s' ∧
      s'.par_bounds = s.par_bounds ∧ s'.n_draws = s.n_draws ∧
      s'.par_draws = s.par_draws ∧ s'.par_models = s.par_models ∧
      s'.gamma0 = s.gamma0 ∧ s'.n_components = s.n_components ∧
      s'.bounds = s.bounds ∧ s'.volume = s.volume ∧
      s'.n_pts = s.n_pts.set id (s.n_pts.getD id 0 + 1) ∧
      s'.weights = derivedWeights (s.n_pts.set id (s.n_pts.getD id 0 + 1))
        s.gamma0 ∧
      ∃ ltp2, s'.log_total_p = some ltp2 ∧ ltp2.length = ltp.length ∧
        (id = 0 → s'.dpgmm = np.addNewPoint s.dpgmm x ∧ ltp2 = ltp) ∧
        (id ≠ 0 → s'.dpgmm = s.dpgmm ∧
          ltp2 = ltp.set (id - 1) (List.zipWith lvAdd (ltp.getD (id - 1) [])
            (if id < s.n_components then (slotVec np s pd ltp nd x id).2
             else []))) := by
  unfold HMM.assign_to_component
  rw [hnd]
  rw [mapM_ok_of_forall (List.range s.n_components)
    (fun i => s.log_predictive_likelihood np x i)
    (fun i => slotVec np s pd ltp nd x i)
    (fun i _ => log_predictive_likelihood_marg np s x i hpb hpd hltp hnd)]
  rw [except_bind_ok]
  by_cases hid : id = 0
  · subst hid
    simp only [if_pos rfl]
    refine ⟨_, rfl, rfl, rfl, rfl, rfl, rfl, rfl, rfl, rfl, rfl, rfl,
      ltp, hltp, rfl, fun _ => ⟨rfl, rfl⟩, fun h => absurd rfl h⟩
  · simp only [if_neg hid]
    rw [hltp]
    refine ⟨_, rfl, rfl, rfl, rfl, rfl, rfl, rfl, rfl, rfl, rfl, rfl,
      _, rfl, List.length_set _ _ _, fun h => absurd h hid, fun _ => ⟨rfl, ?_⟩⟩
    congr 1
    rw [List.map_map, getD_map_range]
    by_cases hlt : id < s.n_components
    · simp [hlt]
    · simp [hlt]

/-! ### Claim C1 -/

/-- C1: on a marginalization-mode engine, `_log_predictive_likelihood(x, i)`
for a parametric slot `i` evaluates the slot's density at `x` at every one
of the `n_draws` candidate parameter vectors, builds the per-candidate
log-likelihood vector `log_p` (zero density mapped to `-inf`), and returns
the scalar `logsumexp(log_p + L) - logsumexp(L)` (with `L` the running
log-evidence vector) together with `log_p` itself. -/
theorem c1_marginal_predictive {σ : Type} (np : NPInterface σ) (s : HMM σ)
    (x : ℝ) (i : ℕ) {pb : List (List (ℝ × ℝ))} {pd : List (List (List ℝ))}
    {ltp : List (List LogVal)} {nd : ℕ} (hi : i ≠ 0)
    (hpb : s.par_bounds = some pb) (hpd : s.par_draws = some pd)
    (hltp : s.log_total_p = some ltp) (hnd : s.n_draws = some nd)
    (hrows : (pd.getD (i - 1) []).length = nd) :
    ∃ log_p : List LogVal,
      log_p = ((pd.getD (i - 1) []).map
          (fun pr => (s.par_models.getD (i - 1) default).pdf_pars x pr)).map
          (fun pj => if pj > 0 then some (Real.log pj) else none) ∧
      log_p.length = nd ∧
      (∀ j, j < nd →
        ((pd.getD (i - 1) []).map
          (fun pr => (s.par_models.getD (i - 1) default).pdf_pars x pr)).getD
            j 1 = 0 →
        log_p.getD j (some 0) = none) ∧
      s.log_predictive_likelihood np x i =
        .ok (lvSub
          (logsumexp (List.zipWith lvAdd log_p (ltp.getD (i - 1) [])))
          (logsumexp (ltp.getD (i - 1) [])), log_p) := by
  refine ⟨_, rfl, ?_, ?_, ?_⟩
  · rw [List.length_map, List.length_map, hrows]
  · intro j hj h0
    have hjd : j < ((pd.getD (i - 1) []).map
        (fun pr => (s.par_models.getD (i - 1) default).pdf_pars x pr)).length := by
      rw [List.length_map, hrows]; exact hj
    have hjd2 : j < (((pd.getD (i - 1) []).map
        (fun pr => (s.par_models.getD (i - 1) default).pdf_pars x pr)).map
        (fun pj => if pj > 0 then some (Real.log pj) else none)).length := by
      rw [List.length_map]; exact hjd
    rw [List.getD_eq_getElem _ _ hjd] at h0
    rw [List.getD_eq_getElem _ _ hjd2]
    rw [List.getElem_map] at h0
    rw [List.getElem_map, List.getElem_map, h0]
    simp
  · rw [log_predictive_likelihood_marg np s x i hpb hpd hltp hnd]
    unfold slotVec
    rw [if_neg hi]
    unfold perCandidateLogP
    rfl

/-- Witness for C1 at a concrete two-candidate engine. -/
theorem c1_marginal_predictive_witness :
    wMargState.par_draws = some [[[1], [3]]] ∧
    wMargState.log_total_p = some [[some 0, some 0]] ∧
    wMargState.n_draws = some 2 ∧
    (∃ log_p : List LogVal,
      log_p = (([[1], [3]] : List (List ℝ)).map
          (fun pr => (wMargState.par_models.getD 0 default).pdf_pars 2 pr)).map
          (fun pj => if pj > 0 then some (Real.log pj) else none) ∧
      log_p.length = 2 ∧
      (∀ j, j < 2 →
        (([[1], [3]] : List (List ℝ)).map
          (fun pr => (wMargState.par_models.getD 0 default).pdf_pars 2 pr)).getD
            j 1 = 0 →
        log_p.getD j (some 0) = none) ∧
      wMargState.log_predictive_likelihood toyNP 2 1 =
        .ok (lvSub
          (logsumexp (List.zipWith lvAdd log_p [some 0, some 0]))
          (logsumexp [some 0, some 0]), log_p)) :=
  ⟨rfl, rfl, rfl,
    c1_marginal_predictive toyNP wMargState 2 1 (by decide) rfl rfl rfl rfl rfl⟩

/-! ### Claims C2, C8, C9: the point-mode attribute slips -/

/-- C2 (failing part): on a point-mode engine (`pars` supplied,
`par_bounds` absent) the constructor never assigns `n_draws`, so
`add_new_point` fails with an attribute error before any assignment or
update can happen, for the non-parametric slot and parametric slots alike. -/
theorem c2_point_mode_add_attribute_error :
    (HMM.init (List ℝ) [mOne] [(0, 1)] (some [[1]]) none 1000 none [] []).bind
      (fun s => s.add_new_point toyNP 0 1) =
    .error "HMM object has no attribute n_draws" := rfl

/-- C8 (failing part): on a point-mode engine the constructor never assigns
`par_draws`, so `build_mixture` fails with an attribute error instead of
always succeeding. -/
theorem c8_build_mixture_attribute_error :
    (HMM.init (List ℝ) [mOne] [(0, 1)] (some [[1]]) none 1000 none [] []).bind
      (fun s => s.build_mixture toyNP) =
    .error "HMM object has no attribute par_draws" := rfl

/-- C9 (failing part): on a point-mode engine whose density is exactly zero
at the query point, `_log_predictive_likelihood` raises an attribute error
(from `np.zeros(self.n_draws)`) instead of returning `-inf`. -/
theorem c9_point_mode_attribute_error :
    (HMM.init (List ℝ) [mZero] [(0, 1)] (some [[]]) none 1000 none [] []).bind
      (fun s => s.log_predictive_likelihood toyNP 0 1) =
    .error "HMM object has no attribute n_draws" := rfl

/-! ### Claim C6 -/

/-- C6: a user-supplied `gamma0` whose length is exactly `n_components` is
nevertheless rejected, because the constructor wraps it as
`np.array([gamma0])` before the length check: with one model
(`n_components = 2`) and `gamma0 = [1, 1]` construction fails. -/
theorem c6_gamma0_wrap_rejects_correct_length :
    HMM.init (List ℝ) [mOne] [(0, 1)] none (some [[(0, 1)]]) 3 (some [1, 1])
      [[[1], [1], [1]]] [] =
    .error "gamma0 must be an array with n_components components." := rfl

/-! ### Claim C7 -/

/-- C7 (counterexample): the engine of the spec's concrete scenario — two
point-mode parametric models — cannot have `n_components = 2`: the
constructor always adds the non-parametric slot, giving `n_components = 3`. -/
theorem c7_counterexample :
    (HMM.init (List ℝ) [mOne, mOne] [(0, 1)] (some [[1], [1]]) none 1000 none
      [] []).map (fun s => s.n_components) = .ok 3 ∧ (3 : ℕ) ≠ 2 :=
  ⟨rfl, by decide⟩

/-- C7 (amended): with 2 point-mode parametric models the engine always
includes the non-parametric slot, so `n_components = 3`; with the default
symmetric prior `gamma0 = [1, 1, 1]`, before any sample the counts are zero
and the weights are `[1/3, 1/3, 1/3]`. -/
theorem c7_amended_three_slots :
    (HMM.init (List ℝ) [mOne, mOne] [(0, 1)] (some [[1], [1]]) none 1000 none
      [] []).map (fun s => (s.n_components, s.gamma0, s.weights, s.n_pts)) =
    .ok (3, [1, 1, 1], [1/3, 1/3, 1/3], [0, 0, 0]) := by
  simp only [HMM.init]
  simp [Except.map, List.replicate]
  norm_num

/-! ### Arithmetic of counts and weights -/

theorem getD_set_self {α : Type} (l : List α) (i : ℕ) (a d : α)
    (h : i < l.length) : (l.set i a).getD i d = a := by
  simp [List.getD, List.getElem?_set_eq_of_lt a h]

theorem getD_set_ne {α : Type} (l : List α) (i j : ℕ) (a d : α)
    (h : i ≠ j) : (l.set i a).getD j d = l.getD j d := by
  simp [List.getD, List.getElem?_set_ne h]

theorem zipWith_cast_replicate_zero (g : List ℚ) :
    List.zipWith (fun (n : ℕ) (gi : ℚ) => (n : ℚ) + gi)
      (List.replicate g.length 0) g = g := by
  induction g with
  | nil => rfl
  | cons a t ih => simp [List.replicate_succ, ih]

theorem sum_map_div (t : List ℚ) (T : ℚ) :
    (t.map (fun ti => ti / T)).sum = t.sum / T := by
  induction t with
  | nil => simp
  | cons a u ih => simp [ih, add_div]

theorem sum_zipWith_cast_add : ∀ (n : List ℕ) (g : List ℚ),
    n.length = g.length →
    (List.zipWith (fun (a : ℕ) (b : ℚ) => (a : ℚ) + b) n g).sum =
      (n.map (fun (a : ℕ) => (a : ℚ))).sum + g.sum := by
  intro n
  induction n with
  | nil =>
      intro g h
      cases g with
      | nil => simp
      | cons b u => simp at h
  | cons a t ih =>
      intro g h
      cases g with
      | nil => simp at h
      | cons b u =>
          simp only [List.zipWith_cons_cons, List.sum_cons, List.map_cons]
          rw [ih u (by simpa using h)]
          ring

theorem derivedWeights_replicate_zero (g : List ℚ) :
    derivedWeights (List.replicate g.length 0) g =
      g.map (fun gi => gi / g.sum) := by
  simp only [derivedWeights]
  rw [zipWith_cast_replicate_zero]

theorem derivedWeights_sum_one (n : List ℕ) (g : List ℚ)
    (hlen : n.length = g.length) (hpos : ∀ gi ∈ g, 0 < gi) (hne : g ≠ []) :
    (derivedWeights n g).sum = 1 := by
  simp only [derivedWeights]
  rw [sum_map_div]
  have hT : 0 < (List.zipWith (fun (a : ℕ) (b : ℚ) => (a : ℚ) + b) n g).sum := by
    rw [sum_zipWith_cast_add n g hlen]
    have h1 : 0 ≤ (n.map (fun (a : ℕ) => (a : ℚ))).sum :=
      List.sum_nonneg (by
        intro x hx
        obtain ⟨a, -, rfl⟩ := List.mem_map.1 hx
        exact Nat.cast_nonneg a)
    have h2 : 0 < g.sum := List.sum_pos g hpos hne
    linarith
  exact div_self (ne_of_gt hT)

/-! ### Frame facts about the state-updating operations -/

theorem init_ok_fields {σ : Type} {models : List (ℝ → List ℝ → ℝ)}
    {bounds : List (ℝ × ℝ)} {pars : Option (List (List ℝ))}
    {pbs : Option (List (List (ℝ × ℝ)))} {ndr : ℕ} {g0 : Option (List ℚ)}
    {draws : List (List (List ℝ))} {dp0 : σ} {s : HMM σ}
    (h : HMM.init σ models bounds pars pbs ndr g0 draws dp0 = .ok s) :
    s.n_components = models.length + 1 ∧
    s.n_pts = List.replicate s.n_components 0 ∧
    s.weights = s.gamma0.map (fun gi => gi / s.gamma0.sum) := by
  rcases g0 with _ | g
  · simp only [HMM.init] at h
    injection h with h
    subst h
    exact ⟨rfl, rfl, rfl⟩
  · simp only [HMM.init] at h
    split at h
    · cases h
    · injection h with h
      subst h
      exact ⟨rfl, rfl, rfl⟩

theorem initialise_fields {σ : Type} (s : HMM σ) (fresh : List (List (List ℝ))) :
    (s.initialise fresh).n_pts = List.replicate s.n_components 0 ∧
    (s.initialise fresh).weights = s.gamma0.map (fun gi => gi / s.gamma0.sum) ∧
    (s.initialise fresh).gamma0 = s.gamma0 ∧
    (s.initialise fresh).n_components = s.n_components := by
  rcases hpb : s.par_bounds with _ | pb <;>
    simp [HMM.initialise, hpb]

theorem assign_ok_n_pts {σ : Type} (np : NPInterface σ) {s s' : HMM σ} {x : ℝ}
    {id : ℕ} (h : s.assign_to_component np x id = .ok s') :
    s'.n_pts = s.n_pts.set id (s.n_pts.getD id 0 + 1) ∧
    s'.n_components = s.n_components ∧ s'.gamma0 = s.gamma0 ∧
    s'.weights = derivedWeights (s.n_pts.set id (s.n_pts.getD id 0 + 1))
      s.gamma0 := by
  unfold HMM.assign_to_component at h
  cases hnd : s.n_draws with
  | none => rw [hnd] at h; cases h
  | some nd =>
      rw [hnd] at h
      obtain ⟨rs, hrs, h2⟩ := except_bind_eq_ok h
      dsimp only at h2
      by_cases hid : id = 0
      · subst hid
        rw [if_pos rfl] at h2
        injection h2 with h2
        subst h2
        exact ⟨rfl, rfl, rfl, rfl⟩
      · rw [if_neg hid] at h2
        cases hltp : s.log_total_p with
        | none => rw [hltp] at h2; cases h2
        | some ltp =>
            rw [hltp] at h2
            injection h2 with h2
            subst h2
            exact ⟨rfl, rfl, rfl, rfl⟩

theorem addSeq_sum {σ : Type} (np : NPInterface σ) :
    ∀ (xs : List (ℝ × ℕ)) (s s' : HMM σ),
    (∀ p ∈ xs, p.2 < s.n_pts.length) →
    addSeq np s xs = .ok s' →
    s'.n_pts.sum = s.n_pts.sum + xs.length := by
  intro xs
  induction xs with
  | nil =>
      intro s s' _ h
      injection h with h
      subst h
      simp
  | cons p rest ih =>
      intro s s' hb h
      rw [addSeq, List.foldlM_cons] at h
      obtain ⟨s1, h1, h2⟩ := except_bind_eq_ok h
      obtain ⟨hnp, -, -, -⟩ := assign_ok_n_pts np h1
      have hlen1 : s1.n_pts.length = s.n_pts.length := by
        rw [hnp, List.length_set]
      have hb1 : ∀ q ∈ rest, q.2 < s1.n_pts.length := by
        rw [hlen1]
        exact fun q hq => hb q (List.mem_cons_of_mem p hq)
      have hrec := ih s1 s' hb1 h2
      rw [hrec, hnp,
        sum_set_getD_succ _ _ (hb p (List.mem_cons_self p rest))]
      simp [List.length_cons]
      omega

/-! ### Claim C3 -/

/-- C3: immediately after construction, after `initialise()`, and after
every successful `add_new_point`, the weight vector equals
`(counts + gamma0) / sum(counts + gamma0)` (so, with positive `gamma0`,
it sums to 1), and before any sample is ingested it equals
`gamma0 / sum(gamma0)` exactly. -/
theorem c3_weights_invariant (σ : Type) (np : NPInterface σ) :
    (∀ (models : List (ℝ → List ℝ → ℝ)) (bounds : List (ℝ × ℝ))
        (pars : Option (List (List ℝ))) (pbs : Option (List (List (ℝ × ℝ))))
        (ndr : ℕ) (g0 : Option (List ℚ)) (draws : List (List (List ℝ)))
        (dp0 : σ) (s : HMM σ),
        HMM.init σ models bounds pars pbs ndr g0 draws dp0 = .ok s →
        s.gamma0.length = s.n_components →
        s.weights = derivedWeights s.n_pts s.gamma0 ∧
        s.weights = s.gamma0.map (fun gi => gi / s.gamma0.sum) ∧
        ((∀ gi ∈ s.gamma0, 0 < gi) → s.weights.sum = 1)) ∧
    (∀ (s : HMM σ) (fresh : List (List (List ℝ))),
        s.gamma0.length = s.n_components →
        (s.initialise fresh).weights =
          derivedWeights (s.initialise fresh).n_pts (s.initialise fresh).gamma0 ∧
        (s.initialise fresh).weights =
          s.gamma0.map (fun gi => gi / s.gamma0.sum) ∧
        ((∀ gi ∈ s.gamma0, 0 < gi) → s.gamma0 ≠ [] →
          (s.initialise fresh).weights.sum = 1)) ∧
    (∀ (s s' : HMM σ) (x : ℝ) (id : ℕ),
        s.add_new_point np x id = .ok s' →
        s'.weights = derivedWeights s'.n_pts s'.gamma0 ∧
        (s.n_pts.length = s.gamma0.length → (∀ gi ∈ s.gamma0, 0 < gi) →
          s.gamma0 ≠ [] → s'.weights.sum = 1)) := by
  refine ⟨?_, ?_, ?_⟩
  · intro models bounds pars pbs ndr g0 draws dp0 s h hlen
    obtain ⟨hnc, hnp, hw⟩ := init_ok_fields h
    refine ⟨?_, hw, ?_⟩
    · rw [hw, hnp, ← hlen, derivedWeights_replicate_zero]
    · intro hpos
      rw [hw, sum_map_div]
      have hne : s.gamma0 ≠ [] := by
        intro hnil
        rw [hnil] at hlen
        rw [hnc] at hlen
        simp at hlen
      exact div_self (ne_of_gt (List.sum_pos s.gamma0 hpos hne))
  · intro s fresh hlen
    obtain ⟨hnp, hw, hg, hnc⟩ := initialise_fields s fresh
    refine ⟨?_, hw, ?_⟩
    · rw [hw, hnp, hg, ← hlen, derivedWeights_replicate_zero]
    · intro hpos hne
      rw [hw, sum_map_div]
      exact div_self (ne_of_gt (List.sum_pos s.gamma0 hpos hne))
  · intro s s' x id h
    obtain ⟨hnp, -, hg, hw⟩ := assign_ok_n_pts np h
    constructor
    · rw [hw, hnp, hg]
    · intro hlen hpos hne
      rw [hw]
      exact derivedWeights_sum_one _ _
        (by rw [List.length_set]; exact hlen) hpos hne

/-- The engine state after `wMargState.add_new_point toyNP 2 0`. -/
def wAfter0 : HMM (List ℝ) :=
  { wMargState with n_pts := [1, 0]
                    weights := derivedWeights [1, 0] [1, 1]
                    dpgmm := [2] }

/-- Witness for C3 at a concrete successful `add_new_point` call. -/
theorem c3_weights_invariant_witness :
    wMargState.add_new_point toyNP 2 0 = .ok wAfter0 ∧
    wAfter0.weights = derivedWeights wAfter0.n_pts wAfter0.gamma0 ∧
    wAfter0.weights.sum = 1 := by
  have h := (c3_weights_invariant (List ℝ) toyNP).2.2 wMargState wAfter0 2 0 rfl
  exact ⟨rfl, h.1, h.2 (by decide) (by decide) (by decide)⟩

/-! ### Claim C4 -/

/-- C4: every successful `add_new_point` that assigns the sample to slot
`id` increments `counts[id]` by exactly 1, leaves every other count
unchanged, and raises the total count by 1; consequently, starting from a
reset state (all counts zero), after a sequence of `n` successful calls
the counts sum to `n`. -/
theorem c4_counts (σ : Type) (np : NPInterface σ) :
    (∀ (s s' : HMM σ) (x : ℝ) (id : ℕ), id < s.n_pts.length →
        s.add_new_point np x id = .ok s' →
        s'.n_pts.getD id 0 = s.n_pts.getD id 0 + 1 ∧
        (∀ j, j ≠ id → s'.n_pts.getD j 0 = s.n_pts.getD j 0) ∧
        s'.n_pts.sum = s.n_pts.sum + 1) ∧
    (∀ (s s' : HMM σ) (xs : List (ℝ × ℕ)),
        (∀ p ∈ xs, p.2 < s.n_pts.length) →
        s.n_pts = List.replicate s.n_components 0 →
        addSeq np s xs = .ok s' →
        s'.n_pts.sum = xs.length) := by
  constructor
  · intro s s' x id hid h
    obtain ⟨hnp, -, -, -⟩ := assign_ok_n_pts np h
    refine ⟨?_, ?_, ?_⟩
    · rw [hnp, getD_set_self _ _ _ _ hid]
    · intro j hj
      rw [hnp, getD_set_ne _ _ _ _ _ (fun e => hj e.symm)]
    · rw [hnp, sum_set_getD_succ _ _ hid]
  · intro s s' xs hb h0 h
    have hs := addSeq_sum np xs s s' hb h
    rw [hs, h0]
    simp

/-- Witness for C4 at a concrete successful `add_new_point` call. -/
theorem c4_counts_witness :
    0 < wMargState.n_pts.length ∧
    wMargState.add_new_point toyNP 2 0 = .ok wAfter0 ∧
    (wAfter0.n_pts.getD 0 0 = wMargState.n_pts.getD 0 0 + 1 ∧
     (∀ j, j ≠ 0 → wAfter0.n_pts.getD j 0 = wMargState.n_pts.getD j 0) ∧
     wAfter0.n_pts.sum = wMargState.n_pts.sum + 1) :=
  ⟨by decide, rfl,
    (c4_counts (List ℝ) toyNP).1 wMargState wAfter0 2 0 (by decide) rfl⟩

/-! ### Finalization: build_mixture in marginalization mode -/

theorem zipWith_replicate_right {α β γ : Type} (f : α → β → γ) (l : List α)
    (c : β) :
    List.zipWith f l (List.replicate l.length c) = l.map (fun a => f a c) := by
  induction l with
  | nil => rfl
  | cons a t ih => simp [List.replicate_succ, ih]

theorem build_marg_ok {σ : Type} (np : NPInterface σ) (s : HMM σ)
    {pd : List (List (List ℝ))} {ltp : List (List LogVal)}
    (hpd : s.par_draws = some pd) (hltp : s.log_total_p = some ltp) :
    ∃ d s1, s.build_mixture np = .ok (d, s1) ∧
      s1.par_models = (List.range s.par_models.length).map (fun i =>
        { s.par_models.getD i default with
            pars := (List.range (((pd.getD i []).getD 0 []).length)).map
              (fun k => (List.zipWith (fun row v => row.getD k 0 * v)
                (pd.getD i [])
                ((ltp.getD i []).map (fun lj =>
                  lvExp (lvSub lj (logsumexp (ltp.getD i [])))))).sum) }) ∧
      d.models = (if np.nPts s.dpgmm = 0 then
          (fun x => uniform x (1 / s.volume)) else np.snapshot s.dpgmm) ::
        s1.par_models.map par_model.pdf ∧
      d.weights = s.weights ∧ d.bounds = s.bounds ∧
      s1.weights = s.weights ∧ s1.n_pts = s.n_pts := by
  unfold HMM.build_mixture
  rw [hpd, hltp]
  exact ⟨_, _, rfl, rfl, rfl, rfl, rfl, rfl, rfl⟩

theorem logsumexp_replicate_zero (n : ℕ) (hn : 1 ≤ n) :
    logsumexp (List.replicate n (some (0 : ℝ))) = some (Real.log n) := by
  have hfalse : (List.replicate n (some (0 : ℝ))).all (fun v => v.isNone)
      = false := by
    cases n with
    | zero => omega
    | succ m => simp [List.replicate_succ]
  simp only [logsumexp, hfalse, Bool.false_eq_true, if_false]
  congr 1
  rw [List.map_replicate]
  rw [show lvExp (some (0 : ℝ)) = 1 by simp [lvExp]]
  rw [List.sum_replicate]
  simp

theorem vals_replicate_zero (n : ℕ) (hn : 1 ≤ n) :
    (List.replicate n (some (0 : ℝ))).map (fun lj =>
      lvExp (lvSub lj (logsumexp (List.replicate n (some (0 : ℝ)))))) =
    List.replicate n ((n : ℝ))⁻¹ := by
  rw [logsumexp_replicate_zero n hn, List.map_replicate]
  congr 1
  show lvExp (lvSub (some 0) (some (Real.log n))) = ((n : ℝ))⁻¹
  rw [show lvSub (some (0 : ℝ)) (some (Real.log n)) =
    some (0 - Real.log n) from rfl]
  rw [show lvExp (some (0 - Real.log n)) = Real.exp (0 - Real.log n) from rfl]
  rw [zero_sub, Real.exp_neg, Real.exp_log]
  exact_mod_cast Nat.lt_of_lt_of_le Nat.zero_lt_one hn

/-! ### Claim C5 -/

/-- C5: `build_mixture()` installs, as each marginalization-mode slot's
fixed parameter vector, the importance-weighted average of its candidate
parameter vectors with weights `exp(L - logsumexp(L))` (`L` the slot's
running log-evidence); when `L` is still all-zero with `n` candidates the
installed vector is the plain unweighted mean of the ensemble. -/
theorem c5_posterior_mean {σ : Type} (np : NPInterface σ) (s : HMM σ) (i : ℕ)
    {pd : List (List (List ℝ))} {ltp : List (List LogVal)}
    (hpd : s.par_draws = some pd) (hltp : s.log_total_p = some ltp)
    (hi : i < s.par_models.length) :
    ∃ d s1, s.build_mixture np = .ok (d, s1) ∧
      (s1.par_models.getD i default).pars =
        (List.range (((pd.getD i []).getD 0 []).length)).map (fun k =>
          (List.zipWith (fun row v => row.getD k 0 * v) (pd.getD i [])
            ((ltp.getD i []).map (fun lj =>
              lvExp (lvSub lj (logsumexp (ltp.getD i [])))))).sum) ∧
      (∀ n : ℕ, 1 ≤ n → ltp.getD i [] = List.replicate n (some 0) →
        (pd.getD i []).length = n →
        (s1.par_models.getD i default).pars =
          (List.range (((pd.getD i []).getD 0 []).length)).map (fun k =>
            ((pd.getD i []).map (fun row => row.getD k 0)).sum / (n : ℝ))) := by
  obtain ⟨d, s1, hbuild, hpm, -, -, -, -, -⟩ := build_marg_ok np s hpd hltp
  have hpars : (s1.par_models.getD i default).pars =
      (List.range (((pd.getD i []).getD 0 []).length)).map (fun k =>
        (List.zipWith (fun row v => row.getD k 0 * v) (pd.getD i [])
          ((ltp.getD i []).map (fun lj =>
            lvExp (lvSub lj (logsumexp (ltp.getD i [])))))).sum) := by
    rw [hpm, getD_map_range]
    rw [if_pos hi]
  refine ⟨d, s1, hbuild, hpars, ?_⟩
  intro n hn hL hrows
  rw [hpars]
  apply List.map_congr_left
  intro k _
  rw [hL, vals_replicate_zero n hn]
  rw [← hrows, zipWith_replicate_right]
  rw [List.sum_map_mul_right]
  rw [div_eq_mul_inv]

/-- Witness for C5 at the two-candidate engine with all-zero log-evidence. -/
theorem c5_posterior_mean_witness :
    wMargState.par_draws = some [[[1], [3]]] ∧
    wMargState.log_total_p = some [[some 0, some 0]] ∧
    0 < wMargState.par_models.length ∧
    (∃ d s1, wMargState.build_mixture toyNP = .ok (d, s1) ∧
      (s1.par_models.getD 0 default).pars =
        (List.range ((([[1], [3]] : List (List ℝ)).getD 0 []).length)).map
          (fun k =>
          (List.zipWith (fun row v => row.getD k 0 * v)
            ([[1], [3]] : List (List ℝ))
            (([some 0, some 0] : List LogVal).map (fun lj =>
              lvExp (lvSub lj
                (logsumexp ([some 0, some 0] : List LogVal)))))).sum) ∧
      (∀ n : ℕ, 1 ≤ n →
        ([some 0, some 0] : List LogVal) = List.replicate n (some 0) →
        ([[1], [3]] : List (List ℝ)).length = n →
        (s1.par_models.getD 0 default).pars =
          (List.range ((([[1], [3]] : List (List ℝ)).getD 0 []).length)).map
            (fun k =>
            (([[1], [3]] : List (List ℝ)).map
              (fun row => row.getD k 0)).sum / (n : ℝ)))) :=
  ⟨rfl, rfl, by decide,
    c5_posterior_mean toyNP wMargState 0 rfl rfl (by decide)⟩

/-! ### The Fisher-Yates shuffle permutes the array -/

theorem head_swap_perm : ∀ (xs : List ℝ) (k : ℕ) (x : ℝ), k < xs.length →
    List.Perm (xs.getD k 0 :: xs.set k x) (x :: xs) := by
  intro xs
  induction xs with
  | nil => intro k x h; simp at h
  | cons y ys ih =>
      intro k x h
      cases k with
      | zero =>
          show List.Perm (y :: x :: ys) (x :: y :: ys)
          exact List.Perm.swap x y ys
      | succ m =>
          show List.Perm (ys.getD m 0 :: y :: ys.set m x) (x :: y :: ys)
          have hm : m < ys.length := by simpa using h
          have h1 : List.Perm (ys.getD m 0 :: y :: ys.set m x)
              (y :: ys.getD m 0 :: ys.set m x) :=
            List.Perm.swap y (ys.getD m 0) (ys.set m x)
          have h2 : List.Perm (y :: ys.getD m 0 :: ys.set m x) (y :: x :: ys) :=
            (ih m x hm).cons y
          have h3 : List.Perm (y :: x :: ys) (x :: y :: ys) :=
            List.Perm.swap x y ys
          exact (h1.trans h2).trans h3

theorem set_set_getD_perm : ∀ (l : List ℝ) (i j : ℕ), i < l.length →
    j < l.length →
    List.Perm ((l.set i (l.getD j 0)).set j (l.getD i 0)) l := by
  intro l
  induction l with
  | nil => intro i j h _; simp at h
  | cons a t ih =>
      intro i j hi hj
      cases i with
      | zero =>
          cases j with
          | zero => exact List.Perm.refl _
          | succ m =>
              show List.Perm (t.getD m 0 :: t.set m a) (a :: t)
              exact head_swap_perm t m a (by simpa using hj)
      | succ n =>
          cases j with
          | zero =>
              show List.Perm (t.getD n 0 :: t.set n a) (a :: t)
              exact head_swap_perm t n a (by simpa using hi)
          | succ m =>
              show List.Perm
                (a :: (t.set n (t.getD m 0)).set m (t.getD n 0)) (a :: t)
              exact (ih n m (by simpa using hi) (by simpa using hj)).cons a

theorem swapIdx_perm (l : List ℝ) (i j : ℕ) : List.Perm (swapIdx l i j) l := by
  unfold swapIdx
  split
  · next h => exact set_set_getD_perm l i j h.1 h.2
  · exact List.Perm.refl l

theorem applySwaps_perm (sw : List (ℕ × ℕ)) (l : List ℝ) :
    List.Perm (applySwaps sw l) l := by
  induction sw generalizing l with
  | nil => exact List.Perm.refl l
  | cons p rest ih =>
      show List.Perm (applySwaps rest (swapIdx l p.1 p.2)) l
      exact (ih (swapIdx l p.1 p.2)).trans (swapIdx_perm l p.1 p.2)

/-! ### The full streaming pass succeeds in marginalization mode -/

theorem addSeq_marg_ok {σ : Type} (np : NPInterface σ) :
    ∀ (xs : List (ℝ × ℕ)) (s : HMM σ) {pb : List (List (ℝ × ℝ))}
      {pd : List (List (List ℝ))} {ltp : List (List LogVal)} {nd : ℕ},
    s.par_bounds = some pb → s.par_draws = some pd →
    s.log_total_p = some ltp → s.n_draws = some nd →
    ∃ s1, addSeq np s xs = .ok s1 ∧
      s1.par_bounds = some pb ∧ s1.par_draws = some pd ∧
      (∃ ltp2, s1.log_total_p = some ltp2) ∧ s1.n_draws = some nd := by
  intro xs
  induction xs with
  | nil =>
      intro s pb pd ltp nd hpb hpd hltp hnd
      exact ⟨s, rfl, hpb, hpd, ⟨ltp, hltp⟩, hnd⟩
  | cons p rest ih =>
      intro s pb pd ltp nd hpb hpd hltp hnd
      obtain ⟨s1, hstep, hpb1, hnd1, hpd1, -, -, -, -, -, -, -, ltp2, hltp2,
        -, -⟩ := assign_marg_ok np s p.1 p.2 hpb hpd hltp hnd
      have hpb1' : s1.par_bounds = some pb := by rw [hpb1, hpb]
      have hpd1' : s1.par_draws = some pd := by rw [hpd1, hpd]
      have hnd1' : s1.n_draws = some nd := by rw [hnd1, hnd]
      obtain ⟨s2, h2, hprops⟩ := ih s1 hpb1' hpd1' hltp2 hnd1'
      refine ⟨s2, ?_, hprops⟩
      have hstep' : s.add_new_point np p.1 p.2 = .ok s1 := hstep
      rw [addSeq, List.foldlM_cons, hstep', except_bind_ok]
      exact h2

/-! ### Claim C10 -/

/-- C10: `density_from_samples` permutes the caller's array in place before
streaming: when the call returns, the caller's array (third component of
the embedded result) holds exactly the Fisher-Yates-shuffled sequence, the
same multiset of samples in shuffled order, which is also the order the
streaming loop consumed; a concrete swap shows the shuffled array can
differ from the original, so the argument is not left unchanged. -/
theorem c10_shuffles_caller_array {σ : Type} (np : NPInterface σ) (s : HMM σ)
    (samples : List ℝ) (sw : List (ℕ × ℕ)) (ids : List ℕ)
    (fresh : List (List (List ℝ))) {pb : List (List (ℝ × ℝ))}
    {pd : List (List (List ℝ))} {ltp : List (List LogVal)} {nd : ℕ}
    (hpb : s.par_bounds = some pb) (hpd : s.par_draws = some pd)
    (hltp : s.log_total_p = some ltp) (hnd : s.n_draws = some nd) :
    (∃ d s4, s.density_from_samples np samples sw ids fresh =
        .ok (d, s4, applySwaps sw samples)) ∧
    List.Perm (applySwaps sw samples) samples ∧
    applySwaps [(0, 1)] ([0, 1] : List ℝ) = [1, 0] := by
  refine ⟨?_, applySwaps_perm sw samples, rfl⟩
  obtain ⟨s1, h1, hpb1, hpd1, ⟨ltp2, hltp2⟩, hnd1⟩ :=
    addSeq_marg_ok np ((applySwaps sw samples).zip ids) s hpb hpd hltp hnd
  obtain ⟨d, s2, hbuild, -⟩ := build_marg_ok np s1 hpd1 hltp2
  have hrun : s.density_from_samples np samples sw ids fresh =
      .ok (d, ({ s2 with dpgmm := np.reset s2.dpgmm } : HMM σ).initialise fresh,
        applySwaps sw samples) := by
    simp only [HMM.density_from_samples]
    rw [h1, except_bind_ok, hbuild, except_bind_ok]
  exact ⟨d, _, hrun⟩

/-- Witness for C10 at a concrete two-sample run. -/
theorem c10_shuffles_caller_array_witness :
    wMargState.par_draws = some [[[1], [3]]] ∧
    wMargState.n_draws = some 2 ∧
    ((∃ d s4, wMargState.density_from_samples toyNP [4, 5] [(0, 1)] [1, 0] [] =
        .ok (d, s4, applySwaps [(0, 1)] [4, 5])) ∧
     List.Perm (applySwaps [(0, 1)] [4, 5]) [4, 5] ∧
     applySwaps [(0, 1)] ([0, 1] : List ℝ) = [1, 0]) :=
  ⟨rfl, rfl,
    c10_shuffles_caller_array toyNP wMargState [4, 5] [(0, 1)] [1, 0] []
      rfl rfl rfl rfl⟩
